import Mathlib

/-!
Shallow embedding of the filter-and-bin mapmaking core of the
`filter_and_bin_mapmaking` notebook: grid-edge construction (`np.linspace`),
per-detector pointing reconstruction, 2D-histogram accumulation
(`SingleMapBinner`), the derived sky map, and the mean / masked-mean
timestream filters.  Angles, samples and calibration constants are real
numbers; numpy arrays become lists; a `G3Frame` becomes a `Frame` record;
a python `KeyError` raised while processing becomes `none`.
-/

namespace FilterBin

/-- Modelled from the spec: the external G3 units system stores angles with
the radian as the base angle unit, so `rad = 1`; the code divides by
`U.rad` to convert a stored angle to radians before taking its cosine. -/
def G3Units.rad : ℝ := 1

/-- Numpy linspace: `num` evenly spaced points from `a` to `b`,
both endpoints included (step `(b - a) / (num - 1)` for `num ≥ 2`). -/
noncomputable def linspace (a b : ℝ) : ℕ → List ℝ
  | 0 => []
  | 1 => [a]
  | n + 2 => (List.range (n + 2)).map (fun i : ℕ => a + (i : ℝ) * ((b - a) / ((n : ℝ) + 1)))

/-- The bin edges `ra_edges = np.linspace(-xlen / 2, xlen / 2, nx + 1) + ra0`. -/
noncomputable def gridRaEdges (ra0 xlen : ℝ) (nx : ℕ) : List ℝ :=
  (linspace (-(xlen / 2)) (xlen / 2) (nx + 1)).map (fun v => v + ra0)

/-- The bin edges `dec_edges = np.linspace(-ylen / 2, ylen / 2, ny + 1) + dec0`. -/
noncomputable def gridDecEdges (dec0 ylen : ℝ) (ny : ℕ) : List ℝ :=
  (linspace (-(ylen / 2)) (ylen / 2) (ny + 1)).map (fun v => v + dec0)

/-- The bin a value falls in for `np.histogram` semantics over a
monotonically increasing edge list: bin `k` is `[e k, e (k+1))`, except the
last bin which is closed on the right; values outside the edge range fall
in no bin. -/
noncomputable def binIndex : List ℝ → ℝ → Option ℕ
  | [], _ => none
  | [_], _ => none
  | [e0, e1], v => if e0 ≤ v ∧ v ≤ e1 then some 0 else none
  | e0 :: e1 :: e2 :: rest, v =>
    if v < e0 then none
    else if v < e1 then some 0
    else Option.map (fun k => k + 1) (binIndex (e1 :: e2 :: rest) v)

/-- A `(y, x)` pointing sample lands in pixel `(i, j)` of the 2D histogram
(`y` binned against the dec edges, `x` against the ra edges). -/
noncomputable def inBin (decE raE : List ℝ) (p : ℝ × ℝ) (i j : ℕ) : Bool :=
  decide (binIndex decE p.1 = some i ∧ binIndex raE p.2 = some j)

/-- Entry `[i][j]` of `np.histogram2d(y, x, bins=[dec_edges, ra_edges], weights=w)[0]`:
the sum of the weights of the samples landing in pixel `(i, j)`. -/
noncomputable def hist2dW (decE raE : List ℝ) (pts : List (ℝ × ℝ)) (w : List ℝ)
    (i j : ℕ) : ℝ :=
  ((((pts.zip w).filter (fun pw => inBin decE raE pw.1 i j)).map (fun pw => pw.2))).sum

/-- Entry `[i][j]` of `np.histogram2d(y, x, bins=[dec_edges, ra_edges])[0]`: the number
of samples landing in pixel `(i, j)` (numpy returns it as a float). -/
noncomputable def hist2dC (decE raE : List ℝ) (pts : List (ℝ × ℝ)) (i j : ℕ) : ℝ :=
  ((pts.filter (fun p => inBin decE raE p i j)).length : ℝ)

/-- One scan record (`G3Frame`): the two boresight pointing sequences plus
the frame's mapping from field name to a timestream map (detector name to
sample sequence).  Field lookup models `key in frame` / `frame[key]`. -/
structure Frame where
  boresightRa : List ℝ
  boresightDec : List ℝ
  tsMaps : List (String × List (String × List ℝ))

/-- The record invariant of the data format: the two boresight sequences
have equal length and every detector timestream in every timestream map has
that same length. -/
def Frame.wf (f : Frame) : Prop :=
  f.boresightRa.length = f.boresightDec.length ∧
    ∀ kv ∈ f.tsMaps, ∀ dt ∈ kv.2, dt.2.length = f.boresightDec.length

/-- The ambient mapmaking data the notebook keeps in globals: the grid
edges, and the per-detector offset tables `xoff` / `yoff` loaded from the
calibration frame. -/
structure MapEnv where
  decEdges : List ℝ
  raEdges : List ℝ
  xoff : List (String × ℝ)
  yoff : List (String × ℝ)

/-- Per-sample offset pointing reconstruction of `SingleMapBinner.__call__`:
`y = BoresightDec - dy` and `x = BoresightRa + dx / cos(y / U.rad)`, the
cosine taken of the offset-corrected `y`. -/
noncomputable def reconPointing (dy dx : ℝ) (bdec bra : List ℝ) : List (ℝ × ℝ) :=
  (bdec.zip bra).map (fun p => (p.1 - dy, p.2 + dx / Real.cos ((p.1 - dy) / G3Units.rad)))

/-- The `SingleMapBinner` object: configuration (`det`, `timestreams`) plus
the two mutable accumulation grids, modelled as functions from pixel
indices to reals. -/
@[ext]
structure SingleMapBinner where
  det : String
  timestreams : String
  data : ℕ → ℕ → ℝ
  hits : ℕ → ℕ → ℝ

/-- The constructor `SingleMapBinner.__init__`: stores the configuration and zero-initializes
`data` and `hits`; it performs no offset lookup. -/
def SingleMapBinner.init (det tskey : String) : SingleMapBinner :=
  { det := det, timestreams := tskey, data := fun _ _ => 0, hits := fun _ _ => 0 }

/-- The method `SingleMapBinner.__call__`: skip the frame if the timestream field or the
detector is absent; otherwise look up the detector's offsets (a missing
entry raises `KeyError`, modelled as `none`), reconstruct the pointing and
add the weighted and unweighted 2D histograms into `data` and `hits`. -/
noncomputable def SingleMapBinner.call (env : MapEnv) (b : SingleMapBinner)
    (f : Frame) : Option SingleMapBinner :=
  match f.tsMaps.lookup b.timestreams with
  | none => some b
  | some tsm =>
    match tsm.lookup b.det with
    | none => some b
    | some ts =>
      match env.yoff.lookup b.det with
      | none => none
      | some dy =>
        match env.xoff.lookup b.det with
        | none => none
        | some dx =>
          some { det := b.det, timestreams := b.timestreams,
                 data := fun i j => b.data i j +
                   hist2dW env.decEdges env.raEdges
                     (reconPointing dy dx f.boresightDec f.boresightRa) ts i j,
                 hits := fun i j => b.hits i j +
                   hist2dC env.decEdges env.raEdges
                     (reconPointing dy dx f.boresightDec f.boresightRa) i j }

/-- Sequential pipeline execution: feed the frames to the binner in order;
an uncaught error aborts the run. -/
noncomputable def runPipeline (env : MapEnv) :
    SingleMapBinner → List Frame → Option SingleMapBinner
  | b, [] => some b
  | b, f :: rest =>
    match SingleMapBinner.call env b f with
    | none => none
    | some b2 => runPipeline env b2 rest

/-- A full run: a freshly constructed binner consuming the whole stream. -/
noncomputable def processStream (env : MapEnv) (det tskey : String)
    (frames : List Frame) : Option SingleMapBinner :=
  runPipeline env (SingleMapBinner.init det tskey) frames

/-- The displayed map `m = binner.data / binner.hits` (elementwise float
division): at a pixel with zero hits the float quotient is not a real
number (IEEE `0/0 = nan`), modelled as `none`. -/
noncomputable def SingleMapBinner.skyMap (b : SingleMapBinner) (i j : ℕ) : Option ℝ :=
  if b.hits i j = 0 then none else some (b.data i j / b.hits i j)

/-- Arithmetic mean of a sample list. -/
noncomputable def mean (xs : List ℝ) : ℝ := xs.sum / (xs.length : ℝ)

/-- Modelled from the spec: the `MeanFilter` exercise is left unimplemented
in the notebook; per spec 4.3 it subtracts the arithmetic mean of the
record's samples from every element (per detector, per record). -/
noncomputable def MeanFilter (samples : List ℝ) : List ℝ :=
  samples.map (fun v => v - mean samples)

/-- Modelled from the spec: angular distance of a `(y, x)` pointing from a
center, in the flat Cartesian grid the notebook works in. -/
noncomputable def angDist (p c : ℝ × ℝ) : ℝ :=
  Real.sqrt ((p.1 - c.1) ^ 2 + (p.2 - c.2) ^ 2)

/-- Modelled from the spec: the baseline estimate of `MaskedMeanFilter` -
the mean over only those samples whose reconstructed pointing lies at
angular distance greater than `radius` from `center`. -/
noncomputable def maskedMean (samples : List ℝ) (pointing : List (ℝ × ℝ))
    (center : ℝ × ℝ) (radius : ℝ) : ℝ :=
  mean (((samples.zip pointing).filter
    (fun sp => radius < angDist sp.2 center)).map (fun sp => sp.1))

/-- Modelled from the spec: the `MaskedMeanFilter` exercise is left
unimplemented in the notebook; per spec 4.3 it subtracts the masked mean
from all samples of the record, the masked-out ones included. -/
noncomputable def MaskedMeanFilter (samples : List ℝ) (pointing : List (ℝ × ℝ))
    (center : ℝ × ℝ) (radius : ℝ) : List ℝ :=
  samples.map (fun v => v - maskedMean samples pointing center radius)

/-- Specification-side description of one record's contribution to pixel
`(i, j)`: the signal samples of the target detector whose reconstructed
pointing fell in that pixel (empty when the record is skipped or the
offsets are unknown). -/
noncomputable def recordContrib (env : MapEnv) (det tskey : String) (f : Frame)
    (i j : ℕ) : List ℝ :=
  match f.tsMaps.lookup tskey with
  | none => []
  | some tsm =>
    match tsm.lookup det with
    | none => []
    | some ts =>
      match env.yoff.lookup det with
      | none => []
      | some dy =>
        match env.xoff.lookup det with
        | none => []
        | some dx =>
          (((reconPointing dy dx f.boresightDec f.boresightRa).zip ts).filter
            (fun pw => inBin env.decEdges env.raEdges pw.1 i j)).map (fun pw => pw.2)

/-- One record's hit-count contribution to pixel `(i, j)` (zero when the
record is skipped or the offsets are unknown). -/
noncomputable def recordHits (env : MapEnv) (det tskey : String) (f : Frame)
    (i j : ℕ) : ℝ :=
  match f.tsMaps.lookup tskey with
  | none => 0
  | some tsm =>
    match tsm.lookup det with
    | none => 0
    | some _ =>
      match env.yoff.lookup det with
      | none => 0
      | some dy =>
        match env.xoff.lookup det with
        | none => 0
        | some dx =>
          hist2dC env.decEdges env.raEdges
            (reconPointing dy dx f.boresightDec f.boresightRa) i j

/-- All signal samples of the stream that fell in pixel `(i, j)`, in order. -/
noncomputable def streamContrib (env : MapEnv) (det tskey : String) :
    List Frame → ℕ → ℕ → List ℝ
  | [], _, _ => []
  | f :: rest, i, j =>
    recordContrib env det tskey f i j ++ streamContrib env det tskey rest i j

/-- Total hit-count contribution of the stream to pixel `(i, j)`. -/
noncomputable def streamHits (env : MapEnv) (det tskey : String) :
    List Frame → ℕ → ℕ → ℝ
  | [], _, _ => 0
  | f :: rest, i, j =>
    recordHits env det tskey f i j + streamHits env det tskey rest i j

/-- The outcome of one `SingleMapBinner.__call__` as a function of the
configuration only: `none` when the call raises, otherwise the pair of
grid increments (zero increments when the frame is skipped). -/
noncomputable def callDelta (env : MapEnv) (det tskey : String) (f : Frame) :
    Option ((ℕ → ℕ → ℝ) × (ℕ → ℕ → ℝ)) :=
  match f.tsMaps.lookup tskey with
  | none => some (fun _ _ => 0, fun _ _ => 0)
  | some tsm =>
    match tsm.lookup det with
    | none => some (fun _ _ => 0, fun _ _ => 0)
    | some ts =>
      match env.yoff.lookup det with
      | none => none
      | some dy =>
        match env.xoff.lookup det with
        | none => none
        | some dx =>
          some (hist2dW env.decEdges env.raEdges
                  (reconPointing dy dx f.boresightDec f.boresightRa) ts,
                hist2dC env.decEdges env.raEdges
                  (reconPointing dy dx f.boresightDec f.boresightRa))

/-- Concrete detector name used for evaluating the development. -/
def detW : String := "2019.00e"

/-- The default timestream key of `SingleMapBinner`. -/
def tsW : String := "CalTimestreams"

/-- Concrete one-bin dec edges. -/
noncomputable def decEW : List ℝ := [0, 1]

/-- Concrete one-bin ra edges. -/
noncomputable def raEW : List ℝ := [0, 1]

/-- Concrete environment: one detector with zero offsets, one-pixel grid. -/
noncomputable def envW : MapEnv :=
  { decEdges := decEW, raEdges := raEW, xoff := [(detW, 0)], yoff := [(detW, 0)] }

/-- Concrete environment whose offset tables are empty. -/
noncomputable def envNoOff : MapEnv :=
  { decEdges := decEW, raEdges := raEW, xoff := [], yoff := [] }

/-- Concrete scan record: one sample at boresight `(1/2, 1/2)` with signal
value `10` for detector `detW`. -/
noncomputable def frameW : Frame :=
  { boresightRa := [1 / 2], boresightDec := [1 / 2],
    tsMaps := [(tsW, [(detW, [10])])] }

/-- The pointing samples of `frameW` for a zero-offset detector. -/
noncomputable def ptsW : List (ℝ × ℝ) :=
  reconPointing 0 0 frameW.boresightDec frameW.boresightRa

/-- The binner state after ingesting `frameW` in `envW`. -/
noncomputable def bW : SingleMapBinner :=
  { det := detW, timestreams := tsW,
    data := fun i j => (0 : ℝ) + hist2dW envW.decEdges envW.raEdges ptsW [10] i j,
    hits := fun i j => (0 : ℝ) + hist2dC envW.decEdges envW.raEdges ptsW i j }

/-! ## Helper lemmas -/

lemma call_eq_delta (env : MapEnv) (b : SingleMapBinner) (f : Frame) :
    SingleMapBinner.call env b f =
      Option.map (fun d : (ℕ → ℕ → ℝ) × (ℕ → ℕ → ℝ) =>
          { det := b.det, timestreams := b.timestreams,
            data := fun i j => b.data i j + d.1 i j,
            hits := fun i j => b.hits i j + d.2 i j })
        (callDelta env b.det b.timestreams f) := by
  rcases b with ⟨bd, bt, bda, bh⟩
  unfold SingleMapBinner.call callDelta
  rcases h1 : f.tsMaps.lookup bt with _ | tsm
  · simp [h1, SingleMapBinner.mk.injEq]
  · rcases h2 : tsm.lookup bd with _ | ts
    · simp [h1, h2, SingleMapBinner.mk.injEq]
    · rcases h3 : env.yoff.lookup bd with _ | dy
      · simp [h1, h2, h3]
      · rcases h4 : env.xoff.lookup bd with _ | dx
        · simp [h1, h2, h3, h4]
        · simp [h1, h2, h3, h4]

/-! ## Claim theorems -/

/-- C6: for a detector with zero `(x, y)` offset the reconstructed pointing
equals the boresight pointing exactly, for any boresight sequences. -/
theorem zero_offset_pointing (bdec bra : List ℝ) :
    reconPointing 0 0 bdec bra = bdec.zip bra := by
  unfold reconPointing
  simp

/-- C2: the reconstructed per-sample pointing is `y = boresight_y - dy` and
`x = boresight_x + dx / cos(y / rad)`, the cosine taken of the
offset-corrected `y`, not the raw boresight `y`. -/
theorem pointing_formula (dy dx : ℝ) (bdec bra : List ℝ) (k : ℕ) (yk xk : ℝ)
    (hy : bdec[k]? = some yk) (hx : bra[k]? = some xk) :
    (reconPointing dy dx bdec bra)[k]? =
      some (yk - dy, xk + dx / Real.cos ((yk - dy) / G3Units.rad)) := by
  unfold reconPointing
  rw [List.getElem?_map]
  have hz : (bdec.zip bra)[k]? = some (yk, xk) :=
    List.getElem?_zip_eq_some.mpr ⟨hy, hx⟩
  rw [hz]
  rfl

/-- C2 witness: the formula evaluated at a concrete sample. -/
theorem pointing_formula_witness :
    ([(2 : ℝ)][0]? = some 2) ∧ ([(3 : ℝ)][0]? = some 3) ∧
    (reconPointing 1 5 [2] [3])[0]? =
      some ((2 : ℝ) - 1, (3 : ℝ) + 5 / Real.cos ((2 - 1) / G3Units.rad)) :=
  ⟨rfl, rfl, pointing_formula 1 5 [2] [3] 0 2 3 rfl rfl⟩

lemma linspace_map_spec (c len : ℝ) (n : ℕ) (h : 0 < len) :
    ((linspace (-(len / 2)) (len / 2) (n + 1)).map (fun v => v + c)).length = n + 1 ∧
    ((linspace (-(len / 2)) (len / 2) (n + 1)).map (fun v => v + c)).Pairwise (· < ·) := by
  cases n with
  | zero =>
    constructor
    · simp [linspace]
    · simp [linspace]
  | succ k =>
    constructor
    · simp [linspace]
    · unfold linspace
      rw [List.map_map]
      rw [← List.chain'_iff_pairwise]
      rw [List.chain'_map]
      have hk : (k : ℕ) + 2 = (k + 1) + 1 := by omega
      rw [hk, List.chain'_range_succ]
      intro m hm
      have hstep : (0 : ℝ) < (len / 2 - -(len / 2)) / ((k : ℝ) + 1) := by
        apply div_pos (by linarith)
        positivity
      simp only [Function.comp, Nat.succ_eq_add_one]
      have hmm : (m : ℝ) < (m : ℝ) + 1 := by linarith
      have h2 := mul_lt_mul_of_pos_right hmm hstep
      push_cast
      linarith

/-- C7: for `N` requested bins per axis the grid construction produces
exactly `N + 1` edge values per axis, and each edge array is strictly
increasing. -/
theorem grid_edges_spec (ra0 dec0 xlen ylen : ℝ) (nx ny : ℕ)
    (hx : 0 < xlen) (hy : 0 < ylen) :
    (gridRaEdges ra0 xlen nx).length = nx + 1 ∧
    (gridRaEdges ra0 xlen nx).Pairwise (· < ·) ∧
    (gridDecEdges dec0 ylen ny).length = ny + 1 ∧
    (gridDecEdges dec0 ylen ny).Pairwise (· < ·) := by
  have h1 := linspace_map_spec ra0 xlen nx hx
  have h2 := linspace_map_spec dec0 ylen ny hy
  exact ⟨h1.1, h1.2, h2.1, h2.2⟩

/-- C7 witness: a one-bin-per-axis grid of unit extent. -/
theorem grid_edges_spec_witness :
    (0 : ℝ) < 1 ∧
    ((gridRaEdges 0 1 1).length = 1 + 1 ∧
      (gridRaEdges 0 1 1).Pairwise (· < ·) ∧
      (gridDecEdges 0 1 1).length = 1 + 1 ∧
      (gridDecEdges 0 1 1).Pairwise (· < ·)) :=
  ⟨by norm_num, grid_edges_spec 0 0 1 1 1 1 (by norm_num) (by norm_num)⟩

lemma sum_map_sub_const (xs : List ℝ) (c : ℝ) :
    (xs.map (fun v => v - c)).sum = xs.sum - (xs.length : ℝ) * c := by
  induction xs with
  | nil => simp
  | cons a l ih =>
    simp only [List.map_cons, List.sum_cons, List.length_cons, ih]
    push_cast
    ring

lemma meanFilter_of_mean_zero (xs : List ℝ) (h : mean xs = 0) :
    MeanFilter xs = xs := by
  unfold MeanFilter
  rw [h]
  simp

/-- C8: applying `MeanFilter` twice to the same record equals applying it
once, because the first application leaves a record of mean zero. -/
theorem meanFilter_idempotent (xs : List ℝ) :
    MeanFilter (MeanFilter xs) = MeanFilter xs := by
  cases xs with
  | nil => rfl
  | cons a l =>
    apply meanFilter_of_mean_zero
    have hn : (((a :: l).length : ℕ) : ℝ) ≠ 0 := Nat.cast_ne_zero.mpr (by simp)
    unfold MeanFilter mean
    rw [sum_map_sub_const]
    rw [List.length_map]
    field_simp

lemma lookup_mem {β : Type} (l : List (String × β)) :
    ∀ (a : String) (c : β), l.lookup a = some c → (a, c) ∈ l := by
  induction l with
  | nil =>
    intro a c h
    simp [List.lookup] at h
  | cons kv rest ih =>
    intro a c h
    rcases kv with ⟨k, v⟩
    rw [List.lookup_cons] at h
    split at h
    · next heq =>
      cases h
      have hak : a = k := by
        exact eq_of_beq heq
      subst hak
      exact List.mem_cons_self _ _
    · exact List.mem_cons_of_mem _ (ih a c h)

lemma filter_zip_length {α β : Type} (P : α → Bool) (pts : List α) :
    ∀ ts : List β, pts.length ≤ ts.length →
      ((pts.zip ts).filter (fun pw => P pw.1)).length = (pts.filter P).length := by
  induction pts with
  | nil =>
    intro ts _
    simp
  | cons p pts ih =>
    intro ts h
    cases ts with
    | nil => simp at h
    | cons t ts =>
      have hle : pts.length ≤ ts.length := by simpa using h
      by_cases hp : P p
      · simp [List.filter_cons, hp, ih ts hle]
      · simp [List.filter_cons, hp, ih ts hle]

lemma filter_zip_nil {α β : Type} (P : α → Bool) (pts : List α) (ts : List β)
    (h : pts.filter P = []) : (pts.zip ts).filter (fun pw => P pw.1) = [] := by
  rw [List.filter_eq_nil_iff] at h ⊢
  intro pw hmem
  rcases pw with ⟨a, w⟩
  exact h a (List.of_mem_zip hmem).1

lemma callDelta_some (env : MapEnv) (det tskey : String) (f : Frame)
    (d : (ℕ → ℕ → ℝ) × (ℕ → ℕ → ℝ)) (hd : callDelta env det tskey f = some d) :
    ∀ i j, d.1 i j = (recordContrib env det tskey f i j).sum ∧
      d.2 i j = recordHits env det tskey f i j := by
  unfold callDelta at hd
  unfold recordContrib recordHits
  rcases h1 : f.tsMaps.lookup tskey with _ | tsm
  · simp only [h1, Option.some.injEq] at hd
    subst hd
    simp [h1]
  · simp only [h1] at hd
    rcases h2 : tsm.lookup det with _ | ts
    · simp only [h2, Option.some.injEq] at hd
      subst hd
      simp [h1, h2]
    · simp only [h2] at hd
      rcases h3 : env.yoff.lookup det with _ | dy
      · simp only [h3] at hd
        exact Option.noConfusion hd
      · simp only [h3] at hd
        rcases h4 : env.xoff.lookup det with _ | dx
        · simp only [h4] at hd
          exact Option.noConfusion hd
        · simp only [h4, Option.some.injEq] at hd
          subst hd
          intro i j
          constructor
          · simp [h1, h2, h3, h4, hist2dW]
          · simp [h1, h2, h3, h4]

lemma call_some_state (env : MapEnv) (b b2 : SingleMapBinner) (f : Frame)
    (h : SingleMapBinner.call env b f = some b2) :
    b2.det = b.det ∧ b2.timestreams = b.timestreams ∧
    ∀ i j, b2.data i j = b.data i j + (recordContrib env b.det b.timestreams f i j).sum ∧
      b2.hits i j = b.hits i j + recordHits env b.det b.timestreams f i j := by
  rw [call_eq_delta] at h
  rcases hd : callDelta env b.det b.timestreams f with _ | d
  · rw [hd] at h
    cases h
  · rw [hd] at h
    simp only [Option.map_some', Option.some.injEq] at h
    subst h
    refine ⟨rfl, rfl, fun i j => ?_⟩
    have hdij := callDelta_some env b.det b.timestreams f d hd i j
    exact ⟨by rw [← hdij.1], by rw [← hdij.2]⟩

lemma runPipeline_state (env : MapEnv) (frames : List Frame) :
    ∀ b0 b : SingleMapBinner, runPipeline env b0 frames = some b →
      b.det = b0.det ∧ b.timestreams = b0.timestreams ∧
      ∀ i j, b.data i j =
          b0.data i j + (streamContrib env b0.det b0.timestreams frames i j).sum ∧
        b.hits i j = b0.hits i j + streamHits env b0.det b0.timestreams frames i j := by
  induction frames with
  | nil =>
    intro b0 b h
    unfold runPipeline at h
    cases h
    simp [streamContrib, streamHits]
  | cons f rest ih =>
    intro b0 b h
    unfold runPipeline at h
    rcases hc : SingleMapBinner.call env b0 f with _ | b1
    · rw [hc] at h
      cases h
    · rw [hc] at h
      obtain ⟨hdet, hts, hgrid⟩ := ih b1 b h
      obtain ⟨hdet1, hts1, hgrid1⟩ := call_some_state env b0 b1 f hc
      refine ⟨hdet.trans hdet1, hts.trans hts1, fun i j => ?_⟩
      have h1 := hgrid i j
      rw [hdet1, hts1] at h1
      have h2 := hgrid1 i j
      constructor
      · rw [h1.1, h2.1]
        simp only [streamContrib]
        rw [List.sum_append]
        ring
      · rw [h1.2, h2.2]
        simp only [streamHits]
        ring

/-- C4: a record lacking the configured timestream field, or lacking data
for the target detector, is skipped: no error, accumulator unchanged. -/
theorem skip_missing_record (env : MapEnv) (b : SingleMapBinner) (f : Frame)
    (h : f.tsMaps.lookup b.timestreams = none ∨
      ∃ tsm, f.tsMaps.lookup b.timestreams = some tsm ∧ tsm.lookup b.det = none) :
    SingleMapBinner.call env b f = some b := by
  unfold SingleMapBinner.call
  rcases h with h | ⟨tsm, h1, h2⟩
  · rw [h]
  · simp only [h1, h2]

/-- C4 witness: a frame with no fields at all is a no-op. -/
theorem skip_missing_record_witness :
    (Frame.mk [] [] []).tsMaps.lookup
        (SingleMapBinner.init detW tsW).timestreams = none ∧
    SingleMapBinner.call (MapEnv.mk [] [] [] [])
        (SingleMapBinner.init detW tsW) (Frame.mk [] [] []) =
      some (SingleMapBinner.init detW tsW) :=
  ⟨rfl, skip_missing_record (MapEnv.mk [] [] [] [])
    (SingleMapBinner.init detW tsW) (Frame.mk [] [] []) (Or.inl rfl)⟩

/-- C5: ingesting two records in either order from the same initial
accumulator state yields identical final `data` / `hits` grids. -/
theorem ingest_order_independent (env : MapEnv) (b : SingleMapBinner) (A B : Frame) :
    runPipeline env b [A, B] = runPipeline env b [B, A] := by
  rcases hdA : callDelta env b.det b.timestreams A with _ | dA
  · rcases hdB : callDelta env b.det b.timestreams B with _ | dB
    · simp [runPipeline, call_eq_delta, hdA, hdB]
    · simp [runPipeline, call_eq_delta, hdA, hdB]
  · rcases hdB : callDelta env b.det b.timestreams B with _ | dB
    · simp [runPipeline, call_eq_delta, hdA, hdB]
    · simp only [runPipeline, call_eq_delta, hdA, hdB, Option.map_some']
      refine congrArg some (SingleMapBinner.ext ?_ ?_ ?_ ?_)
      · rfl
      · rfl
      · funext i j
        simp only
        ring
      · funext i j
        simp only
        ring

/-- C3 counterexample: with empty offset tables, constructing the binner
for `detW` succeeds (construction performs no offset lookup at all, so no
configuration-time error is possible), and the missing-offset error is
instead raised while ingesting a record carrying the detector's data -
against the claim that it is reported at construction time and never
per-record. -/
theorem missing_offset_error_cex :
    envNoOff.yoff.lookup (SingleMapBinner.init detW tsW).det = none ∧
    SingleMapBinner.call envNoOff (SingleMapBinner.init detW tsW) frameW = none :=
  ⟨rfl, rfl⟩

/-- C3 amended: `SingleMapBinner.__init__` performs no offset check; a
target detector with no offset entry raises a `KeyError` at the first
ingested record that carries the configured timestream field and the
detector, and the offset is never silently defaulted to zero. -/
theorem missing_offset_errors_at_ingest (env : MapEnv) (b : SingleMapBinner)
    (f : Frame) (tsm : List (String × List ℝ)) (ts : List ℝ)
    (h1 : f.tsMaps.lookup b.timestreams = some tsm)
    (h2 : tsm.lookup b.det = some ts)
    (h3 : env.yoff.lookup b.det = none) :
    SingleMapBinner.call env b f = none := by
  unfold SingleMapBinner.call
  simp only [h1, h2, h3]

/-- C3 amended witness: the error fires when `frameW` is ingested. -/
theorem missing_offset_errors_at_ingest_witness :
    frameW.tsMaps.lookup (SingleMapBinner.init detW tsW).timestreams =
      some [(detW, [10])] ∧
    ([(detW, [(10 : ℝ)])] : List (String × List ℝ)).lookup
      (SingleMapBinner.init detW tsW).det = some [10] ∧
    envNoOff.yoff.lookup (SingleMapBinner.init detW tsW).det = none ∧
    SingleMapBinner.call envNoOff (SingleMapBinner.init detW tsW) frameW = none :=
  ⟨rfl, rfl, rfl,
    missing_offset_errors_at_ingest envNoOff (SingleMapBinner.init detW tsW)
      frameW [(detW, [10])] [10] rfl rfl rfl⟩

lemma recordHits_nonneg (env : MapEnv) (det tskey : String) (f : Frame) (i j : ℕ) :
    0 ≤ recordHits env det tskey f i j := by
  unfold recordHits hist2dC
  repeat' split
  all_goals positivity

lemma streamHits_nonneg (env : MapEnv) (det tskey : String) :
    ∀ (frames : List Frame) (i j : ℕ), 0 ≤ streamHits env det tskey frames i j := by
  intro frames
  induction frames with
  | nil =>
    intro i j
    simp [streamHits]
  | cons f rest ih =>
    intro i j
    simp only [streamHits]
    have := recordHits_nonneg env det tskey f i j
    have := ih i j
    linarith

lemma recordHits_zero_contrib (env : MapEnv) (det tskey : String) (f : Frame)
    (i j : ℕ) (h : recordHits env det tskey f i j = 0) :
    recordContrib env det tskey f i j = [] := by
  unfold recordHits at h
  unfold recordContrib
  rcases h1 : f.tsMaps.lookup tskey with _ | tsm
  · simp [h1]
  · simp only [h1] at h ⊢
    rcases h2 : tsm.lookup det with _ | ts
    · simp [h2]
    · simp only [h2] at h ⊢
      rcases h3 : env.yoff.lookup det with _ | dy
      · simp [h3]
      · simp only [h3] at h ⊢
        rcases h4 : env.xoff.lookup det with _ | dx
        · simp [h4]
        · simp only [h4] at h ⊢
          unfold hist2dC at h
          rw [Nat.cast_eq_zero, List.length_eq_zero] at h
          rw [filter_zip_nil (fun p => inBin env.decEdges env.raEdges p i j) _ _ h]
          rfl

lemma streamHits_zero_contrib (env : MapEnv) (det tskey : String) :
    ∀ (frames : List Frame) (i j : ℕ),
      streamHits env det tskey frames i j = 0 →
      streamContrib env det tskey frames i j = [] := by
  intro frames
  induction frames with
  | nil =>
    intro i j _
    rfl
  | cons f rest ih =>
    intro i j h
    simp only [streamHits] at h
    have hr := recordHits_nonneg env det tskey f i j
    have hs := streamHits_nonneg env det tskey rest i j
    have h1 : recordHits env det tskey f i j = 0 := by linarith
    have h2 : streamHits env det tskey rest i j = 0 := by linarith
    simp only [streamContrib]
    rw [recordHits_zero_contrib env det tskey f i j h1, ih i j h2]
    rfl

/-- C10: in every reachable accumulator state, a pixel with zero hit count
also has zero signal sum - the weighted and unweighted histograms bin the
very same pointing samples against the same edges, and out-of-range
samples contribute to neither grid. -/
theorem zero_hits_zero_data (env : MapEnv) (det tskey : String)
    (frames : List Frame) (b : SingleMapBinner)
    (h : processStream env det tskey frames = some b) (i j : ℕ)
    (hz : b.hits i j = 0) : b.data i j = 0 := by
  unfold processStream at h
  obtain ⟨hdet, hts, hgrid⟩ := runPipeline_state env frames _ b h
  have hD := (hgrid i j).1
  have hH := (hgrid i j).2
  simp only [SingleMapBinner.init, zero_add] at hD hH
  rw [hz] at hH
  rw [hD, streamHits_zero_contrib env det tskey frames i j hH.symm]
  rfl

lemma recordHits_eq_length (env : MapEnv) (det tskey : String) (f : Frame)
    (hwf : f.wf) (i j : ℕ) :
    recordHits env det tskey f i j = ((recordContrib env det tskey f i j).length : ℝ) := by
  unfold recordHits recordContrib
  rcases h1 : f.tsMaps.lookup tskey with _ | tsm
  · simp
  · simp only
    rcases h2 : tsm.lookup det with _ | ts
    · simp
    · simp only
      rcases h3 : env.yoff.lookup det with _ | dy
      · simp
      · simp only
        rcases h4 : env.xoff.lookup det with _ | dx
        · simp
        · simp only
          unfold hist2dC
          rw [List.length_map]
          have hts : ts.length = f.boresightDec.length :=
            hwf.2 (tskey, tsm) (lookup_mem f.tsMaps tskey tsm h1)
              (det, ts) (lookup_mem tsm det ts h2)
          have hlen : (reconPointing dy dx f.boresightDec f.boresightRa).length ≤ ts.length := by
            unfold reconPointing
            rw [List.length_map, List.length_zip, hwf.1, hts]
            omega
          rw [filter_zip_length (fun p => inBin env.decEdges env.raEdges p i j) _ ts hlen]

lemma streamHits_eq_length (env : MapEnv) (det tskey : String) :
    ∀ (frames : List Frame), (∀ f ∈ frames, f.wf) → ∀ i j : ℕ,
      streamHits env det tskey frames i j =
        ((streamContrib env det tskey frames i j).length : ℝ) := by
  intro frames
  induction frames with
  | nil =>
    intro _ i j
    simp [streamHits, streamContrib]
  | cons f rest ih =>
    intro hwf i j
    simp only [streamHits, streamContrib]
    rw [recordHits_eq_length env det tskey f (hwf f (List.mem_cons_self f rest)) i j]
    rw [ih (fun g hg => hwf g (List.mem_cons_of_mem f hg)) i j]
    rw [List.length_append]
    push_cast
    ring

/-- C1: after processing a stream of well-formed records, a pixel with a
positive hit count holds the arithmetic mean of all signal samples whose
reconstructed pointing fell in that pixel, and a pixel with zero hits is
excluded from the derived map (float `0/0`, not a number - never zero). -/
theorem binned_map_is_mean (env : MapEnv) (det tskey : String)
    (frames : List Frame) (b : SingleMapBinner)
    (hwf : ∀ f ∈ frames, f.wf)
    (h : processStream env det tskey frames = some b) (i j : ℕ) :
    (0 < b.hits i j →
      b.data i j / b.hits i j = mean (streamContrib env det tskey frames i j)) ∧
    (b.hits i j = 0 → b.skyMap i j = none) := by
  unfold processStream at h
  obtain ⟨hdet, hts, hgrid⟩ := runPipeline_state env frames _ b h
  have hD := (hgrid i j).1
  have hH := (hgrid i j).2
  simp only [SingleMapBinner.init, zero_add] at hD hH
  constructor
  · intro hpos
    rw [hD, hH, streamHits_eq_length env det tskey frames hwf i j]
    rfl
  · intro hz
    unfold SingleMapBinner.skyMap
    rw [if_pos hz]

lemma runW : processStream envW detW tsW [frameW] = some bW := rfl

lemma ptsW_eval : ptsW = [((1 : ℝ) / 2, (1 : ℝ) / 2)] := by
  unfold ptsW reconPointing frameW
  simp

lemma bin01_half : binIndex [(0 : ℝ), 1] (1 / 2) = some 0 := by
  norm_num [binIndex]

lemma bW_hits_00 : bW.hits 0 0 = 1 := by
  norm_num [bW, envW, decEW, raEW, hist2dC, ptsW_eval, inBin, bin01_half]

lemma bW_hits_55 : bW.hits 5 5 = 0 := by
  norm_num [bW, envW, decEW, raEW, hist2dC, ptsW_eval, inBin, bin01_half]

lemma frameW_wf : Frame.wf frameW := by
  simp [Frame.wf, frameW]

/-- C1 witness: a one-record stream with one sample of value `10` landing
in pixel `(0, 0)`. -/
theorem binned_map_is_mean_witness :
    (∀ f ∈ [frameW], f.wf) ∧
    processStream envW detW tsW [frameW] = some bW ∧
    0 < bW.hits 0 0 ∧
    bW.data 0 0 / bW.hits 0 0 = mean (streamContrib envW detW tsW [frameW] 0 0) := by
  have hwf : ∀ f ∈ [frameW], Frame.wf f := by
    intro f hf
    rw [List.mem_singleton] at hf
    subst hf
    exact frameW_wf
  have hpos : 0 < bW.hits 0 0 := by
    rw [bW_hits_00]
    norm_num
  exact ⟨hwf, runW, hpos,
    (binned_map_is_mean envW detW tsW [frameW] bW hwf runW 0 0).1 hpos⟩

/-- C10 witness: pixel `(5, 5)` receives no hits, and its signal sum is
likewise zero. -/
theorem zero_hits_zero_data_witness :
    processStream envW detW tsW [frameW] = some bW ∧
    bW.hits 5 5 = 0 ∧ bW.data 5 5 = 0 :=
  ⟨runW, bW_hits_55,
    zero_hits_zero_data envW detW tsW [frameW] bW runW 5 5 bW_hits_55⟩

lemma sum_const_of_mem (l : List ℝ) (b : ℝ) (h : ∀ v ∈ l, v = b) :
    l.sum = (l.length : ℝ) * b := by
  induction l with
  | nil => simp
  | cons a t ih =>
    have ha : a = b := h a (List.mem_cons_self a t)
    have ht := ih (fun v hv => h v (List.mem_cons_of_mem a hv))
    simp only [List.sum_cons, List.length_cons, ha, ht]
    push_cast
    ring

/-- C9: for a record that is a constant background `b` plus a single spike
`b + A` whose pointing lies within `radius` of `center` (every other
sample pointing farther than `radius`), the masked mean equals the
background exactly - independent of the spike magnitude `A` - while the
unmasked mean is shifted by `A / num_samples`; the masked mean is then
subtracted from every sample of the record, the masked-out spike
included. -/
theorem masked_filter_boundary (b A radius : ℝ) (center pk : ℝ × ℝ)
    (l1 l2 : List ℝ) (q1 q2 : List (ℝ × ℝ))
    (hb1 : ∀ v ∈ l1, v = b) (hb2 : ∀ v ∈ l2, v = b)
    (hlen1 : l1.length = q1.length) (hlen2 : l2.length = q2.length)
    (hq1 : ∀ p ∈ q1, radius < angDist p center)
    (hq2 : ∀ p ∈ q2, radius < angDist p center)
    (hpk : ¬ radius < angDist pk center)
    (hne : l1 ≠ [] ∨ l2 ≠ []) :
    maskedMean (l1 ++ (b + A) :: l2) (q1 ++ pk :: q2) center radius = b ∧
    mean (l1 ++ (b + A) :: l2) =
      b + A / (((l1 ++ (b + A) :: l2).length : ℕ) : ℝ) ∧
    MaskedMeanFilter (l1 ++ (b + A) :: l2) (q1 ++ pk :: q2) center radius =
      (l1 ++ (b + A) :: l2).map (fun v => v - b) := by
  have hzip : (l1 ++ (b + A) :: l2).zip (q1 ++ pk :: q2) =
      l1.zip q1 ++ ((b + A), pk) :: l2.zip q2 := by
    rw [List.zip_append hlen1]
    rfl
  have hfilt : ((l1 ++ (b + A) :: l2).zip (q1 ++ pk :: q2)).filter
      (fun sp => radius < angDist sp.2 center) = l1.zip q1 ++ l2.zip q2 := by
    rw [hzip, List.filter_append]
    rw [List.filter_cons_of_neg (by simpa using hpk)]
    congr 1
    · apply List.filter_eq_self.mpr
      intro sp hsp
      rcases sp with ⟨v, p⟩
      exact decide_eq_true (hq1 p (List.of_mem_zip hsp).2)
    · apply List.filter_eq_self.mpr
      intro sp hsp
      rcases sp with ⟨v, p⟩
      exact decide_eq_true (hq2 p (List.of_mem_zip hsp).2)
  have hkept : (((l1 ++ (b + A) :: l2).zip (q1 ++ pk :: q2)).filter
      (fun sp => radius < angDist sp.2 center)).map (fun sp => sp.1) = l1 ++ l2 := by
    rw [hfilt, List.map_append]
    rw [show (fun sp : ℝ × (ℝ × ℝ) => sp.1) = Prod.fst from rfl]
    rw [List.map_fst_zip l1 q1 (le_of_eq hlen1), List.map_fst_zip l2 q2 (le_of_eq hlen2)]
  have hlen12 : (((l1 ++ l2).length : ℕ) : ℝ) ≠ 0 := by
    apply Nat.cast_ne_zero.mpr
    rw [List.length_append]
    rcases hne with h | h
    · have := List.length_pos.mpr h
      omega
    · have := List.length_pos.mpr h
      omega
  have hsum12 : (l1 ++ l2).sum = ((l1 ++ l2).length : ℝ) * b := by
    apply sum_const_of_mem
    intro v hv
    rcases List.mem_append.mp hv with h | h
    · exact hb1 v h
    · exact hb2 v h
  have hmask : maskedMean (l1 ++ (b + A) :: l2) (q1 ++ pk :: q2) center radius = b := by
    unfold maskedMean mean
    rw [hkept, hsum12]
    exact mul_div_cancel_left₀ b hlen12
  refine ⟨hmask, ?_, ?_⟩
  · unfold mean
    rw [List.sum_append, List.sum_cons, sum_const_of_mem l1 b hb1,
      sum_const_of_mem l2 b hb2, List.length_append, List.length_cons]
    have hn : ((l1.length + (l2.length + 1) : ℕ) : ℝ) ≠ 0 :=
      Nat.cast_ne_zero.mpr (by omega)
    push_cast
    push_cast at hn
    field_simp
    ring
  · unfold MaskedMeanFilter
    rw [hmask]

/-- C9 witness: background `5`, spike `5 + 7` pointing at distance `0` of
the center, one background sample pointing at distance `5`, radius `1`. -/
theorem masked_filter_boundary_witness :
    (1 : ℝ) < angDist (3, 4) (0, 0) ∧
    ¬ (1 : ℝ) < angDist (0, 0) (0, 0) ∧
    maskedMean [(5 : ℝ), 5 + 7] [((3 : ℝ), (4 : ℝ)), (0, 0)] (0, 0) 1 = 5 ∧
    mean [(5 : ℝ), 5 + 7] = 5 + 7 / (([(5 : ℝ), 5 + 7].length : ℕ) : ℝ) ∧
    MaskedMeanFilter [(5 : ℝ), 5 + 7] [((3 : ℝ), (4 : ℝ)), (0, 0)] (0, 0) 1 =
      [(5 : ℝ), 5 + 7].map (fun v => v - 5) := by
  have h34 : angDist ((3 : ℝ), (4 : ℝ)) (0, 0) = 5 := by
    unfold angDist
    rw [show (((3 : ℝ), (4 : ℝ)).1 - ((0 : ℝ), (0 : ℝ)).1) ^ 2 +
        (((3 : ℝ), (4 : ℝ)).2 - ((0 : ℝ), (0 : ℝ)).2) ^ 2 = 5 ^ 2 from by norm_num]
    exact Real.sqrt_sq (by norm_num)
  have h00 : angDist ((0 : ℝ), (0 : ℝ)) (0, 0) = 0 := by
    unfold angDist
    norm_num
  have hmain := masked_filter_boundary 5 7 1 (0, 0) (0, 0) [5] [] [(3, 4)] []
    (by simp) (by simp) rfl rfl
    (by
      intro p hp
      rw [List.mem_singleton] at hp
      subst hp
      rw [h34]
      norm_num)
    (by simp)
    (by
      rw [h00]
      norm_num)
    (Or.inl (by simp))
  exact ⟨by rw [h34]; norm_num, by rw [h00]; norm_num,
    hmain.1, hmain.2.1, hmain.2.2⟩

end FilterBin
